import Mathlib

/-
Verification of the kaze shared-memory SPSC ring buffer (src/core/kaze.h).

The byte-level state of one ring buffer (header fields size/head/tail/used/need
plus the payload area) is embedded as a Lean structure; the payload area is a
total map from byte offsets to byte values, exactly as the C code views the
region behind the header.  The uint32_t cells and the size_t subtraction in
rb_space_size wrap with explicit reductions modulo 2^32 and 2^64.  The framed
size computation of the source appears in two forms: the unbounded align_up
(frameSize), used where the theorems carry bounds under which it provably
coincides with the machine computation (rb_try_push_szt_eq), and the exact
size_t computation (frameSize_szt, rb_try_push_szt), which exposes the
integer overflow that bypasses the too-big check of rb_try_push.
-/

namespace Kaze

/- Return codes of the library (kaze.h lines 17-21).  This is the complete
   list: the header defines no CLOSED code. -/
def KZ_OK : Int := 0
def KZ_FAIL : Int := -1
def KZ_TOOBIG : Int := -2
def KZ_BUSY : Int := -3
def KZ_TIMEOUT : Int := -4

def kzReturnCodes : List Int := [KZ_OK, KZ_FAIL, KZ_TOOBIG, KZ_BUSY, KZ_TIMEOUT]

/- KZ_ALIGN is sizeof(uint32_t). -/
def KZ_ALIGN : Nat := 4

/- One past the largest value of a uint32_t cell, and of a size_t value. -/
def U32 : Nat := 4294967296
def SIZE_T : Nat := 18446744073709551616

/- kz_get_aligned_size: (size + align - 1) & ~(align - 1).  For the
   power-of-two align used throughout (KZ_ALIGN = 4) the masking form equals
   rounding (size + align - 1) down to a multiple of align. -/
def kz_get_aligned_size (size align : Nat) : Nat :=
  (size + align - 1) / align * align

/- The framed size rb_try_push computes,
   kz_get_aligned_size(size + sizeof(uint32_t), KZ_ALIGN), read as the
   unbounded mathematical align_up.  The source evaluates it in size_t;
   frameSize_szt below is that exact machine value, and the two agree for
   every L with L + 8 <= 2^64 (lemma frameSize_szt_eq). -/
def frameSize (L : Nat) : Nat := kz_get_aligned_size (L + 4) KZ_ALIGN

/- The framed size exactly as the source computes it in size_t: the argument
   sum size + 4 and the masked addition inside kz_get_aligned_size both wrap
   modulo 2^64.  For L in the top seven values of size_t the result wraps to
   0 or 4. -/
def frameSize_szt (L : Nat) : Nat :=
  kz_get_aligned_size ((L + 4) % SIZE_T) KZ_ALIGN % SIZE_T

/- kz_write_u32le: store the four little-endian bytes of n at offsets
   p .. p+3 of the byte map. -/
def kz_write_u32le (mem : Nat → Nat) (p : Nat) (n : Nat) : Nat → Nat :=
  fun i =>
    if i = p then n % 256
    else if i = p + 1 then n / 256 % 256
    else if i = p + 2 then n / 65536 % 256
    else if i = p + 3 then n / 16777216 % 256
    else mem i

/- kz_read_u32le: read the four little-endian bytes at offsets p .. p+3. -/
def kz_read_u32le (mem : Nat → Nat) (p : Nat) : Nat :=
  mem p + 256 * mem (p + 1) + 65536 * mem (p + 2) + 16777216 * mem (p + 3)

/- memcpy of n bytes into the byte map at dst, taken from src starting at
   source offset soff. -/
def memcpy (mem : Nat → Nat) (dst : Nat) (src : Nat → Nat) (soff n : Nat) : Nat → Nat :=
  fun i => if dst ≤ i ∧ i < dst + n then src (soff + (i - dst)) else mem i

/- kz_RBHdr together with the payload bytes that follow it.  size, head,
   tail, used and need are the uint32_t header cells; mem is the payload
   area rb_data(rb). -/
structure RB where
  size : Nat
  head : Nat
  tail : Nat
  used : Nat
  need : Nat
  mem  : Nat → Nat

/- kz_ReceivedData.  The refer pointer is modelled by a Bool telling whether
   it is non-NULL (it always points back at the ring header when set). -/
structure ReceivedData where
  refer : Bool
  head : Nat
  size : Nat
  deriving DecidableEq

/- rb_init: stamp the header fields; the payload bytes are not touched. -/
def rb_init (size : Nat) (mem : Nat → Nat) : RB :=
  { size := size, head := 0, tail := 0, used := 0, need := 0, mem := mem }

/- rb_space_size: hdr->size - used, computed in size_t, so wrapping modulo
   2^64 when used exceeds size. -/
def rb_space_size (rb : RB) : Nat :=
  (rb.size + (SIZE_T - rb.used)) % SIZE_T

/- The byte writes of the enqueue path of rb_try_push: the 4-byte
   little-endian length prefixed at tl, then the payload, split into two
   memcpys when it would run past the end of the ring. -/
def rb_push_bytes (mem : Nat → Nat) (C tl : Nat) (data : Nat → Nat) (sz : Nat) : Nat → Nat :=
  if tl + 4 + sz ≤ C then
    memcpy (kz_write_u32le mem tl sz) (tl + 4) data 0 sz
  else
    memcpy (memcpy (kz_write_u32le mem tl sz) (tl + 4) data 0 (C - (tl + 4)))
      0 data (C - (tl + 4)) (sz - (C - (tl + 4)))

/- rb_try_push.  Returns the code, the new ring state, and whether one
   sleeper on the used cell is woken (the fetch-add observed used == 0). -/
def rb_try_push (rb : RB) (data : Nat → Nat) (size : Nat) : Int × RB × Bool :=
  if rb.size < frameSize size then (KZ_TOOBIG, rb, false)
  else if rb_space_size rb < frameSize size then
    (KZ_BUSY, { rb with need := (frameSize size - rb_space_size rb) % U32 }, false)
  else
    (KZ_OK,
      { rb with
        mem := rb_push_bytes rb.mem rb.size rb.tail data size,
        tail := (rb.tail + frameSize size) % rb.size,
        used := (rb.used + frameSize size) % U32 },
      rb.used == 0)

/- rb_try_push with the framed size taken as the exact size_t computation:
   the same source lines as rb_try_push, drawing need_size from
   frameSize_szt.  rb_try_push_szt_eq below proves the two embeddings equal
   whenever size + 8 <= 2^64; they differ only at the seven top size_t
   values, where the wrapped need_size of 0 or 4 slips past the TOOBIG
   guard. -/
def rb_try_push_szt (rb : RB) (data : Nat → Nat) (size : Nat) : Int × RB × Bool :=
  if rb.size < frameSize_szt size then (KZ_TOOBIG, rb, false)
  else if rb_space_size rb < frameSize_szt size then
    (KZ_BUSY, { rb with need := (frameSize_szt size - rb_space_size rb) % U32 }, false)
  else
    (KZ_OK,
      { rb with
        mem := rb_push_bytes rb.mem rb.size rb.tail data size,
        tail := (rb.tail + frameSize_szt size) % rb.size,
        used := (rb.used + frameSize_szt size) % U32 },
      rb.used == 0)

/- rb_try_pop.  The shared ring is only read; the function fills the caller
   owned kz_ReceivedData on success.  The returned RB is the (unchanged)
   ring state after the call. -/
def rb_try_pop (rb : RB) : Int × RB × Option ReceivedData :=
  if rb.used = 0 then (KZ_BUSY, rb, none)
  else
    (KZ_OK, rb,
      some { refer := true, head := rb.head + 4, size := kz_read_u32le rb.mem rb.head })

/- a - b on a uint32_t cell: the b operand is first truncated to uint32_t,
   the subtraction wraps modulo 2^32. -/
def u32sub (a b : Nat) : Nat := (a + (U32 - b % U32)) % U32

/- Reading a uint32_t value as int32_t (two's complement). -/
def toInt32 (n : Nat) : Int :=
  if n % U32 < 2147483648 then ((n % U32 : Nat) : Int)
  else ((n % U32 : Nat) : Int) - (U32 : Int)

/- rb_pop_commit: advance head by the framed size of the received message
   and release the bytes from used. -/
def rb_pop_commit (rb : RB) (data : ReceivedData) : RB :=
  { rb with
    head := (rb.head + kz_get_aligned_size (4 + data.size) KZ_ALIGN) % rb.size,
    used := u32sub rb.used (kz_get_aligned_size (4 + data.size) KZ_ALIGN) }

/- kz_data_count: 0 for a NULL refer, else 1 when head + size < capacity,
   2 otherwise. -/
def kz_data_count (rb : RB) (data : ReceivedData) : Nat :=
  if data.refer = false then 0
  else if data.head + data.size < rb.size then 1 else 2

/- kz_data_part: the pair (byte offset into the ring data area, length),
   or none for the NULL return. -/
def kz_data_part (rb : RB) (data : ReceivedData) (idx : Nat) : Option (Nat × Nat) :=
  if kz_data_count rb data ≤ idx then none
  else if idx = 0 then
    some (data.head,
      if kz_data_count rb data = 1 then data.size else rb.size - data.size)
  else some (0, data.size - (rb.size - data.head))

/- kz_data_free: commit the pop, then subtract the framed size from need
   (wrapping) and wake all sleepers on need when the new value is <= 0 as
   int32_t.  The Bool records whether that wake-all is issued. -/
def kz_data_free (rb : RB) (data : ReceivedData) : RB × Bool :=
  ({ rb_pop_commit rb data with
      need := u32sub rb.need (kz_get_aligned_size (data.size + 4) KZ_ALIGN) },
   decide (toInt32 (u32sub rb.need (kz_get_aligned_size (data.size + 4) KZ_ALIGN)) ≤ 0))

/- Outcome of a kz_futex_wait call, as seen by the caller: woken (or value
   mismatch), timed out (-1 with errno == ETIMEDOUT), or failed (-1 with
   another errno). -/
inductive WaitOutcome where
  | woken
  | timedout
  | failed
  deriving DecidableEq

/- kz_push_until: a try_push, then on BUSY one wait on the need cell; a
   wait that reports -1 turns into KZ_TIMEOUT or KZ_FAIL, otherwise the
   try_push is repeated once. -/
def kz_push_until (rb : RB) (data : Nat → Nat) (size : Nat) (w : WaitOutcome) : Int × RB :=
  if rb.size < frameSize size then (KZ_TOOBIG, rb)
  else if (rb_try_push rb data size).1 ≠ KZ_BUSY then
    ((rb_try_push rb data size).1, (rb_try_push rb data size).2.1)
  else
    match w with
    | .timedout => (KZ_TIMEOUT, (rb_try_push rb data size).2.1)
    | .failed => (KZ_FAIL, (rb_try_push rb data size).2.1)
    | .woken =>
      ((rb_try_push (rb_try_push rb data size).2.1 data size).1,
       (rb_try_push (rb_try_push rb data size).2.1 data size).2.1)

/- kz_pop_until: a try_pop, then on BUSY a wait on the used cell whose
   result is discarded, then the value of a second try_pop — the wait
   outcome never reaches the caller. -/
def kz_pop_until (rb : RB) (_w : WaitOutcome) : Int × RB × Option ReceivedData :=
  if (rb_try_pop rb).1 ≠ KZ_BUSY then rb_try_pop rb
  else rb_try_pop rb

/- kz_futex_wake, Linux branch: ret is what the FUTEX_WAKE syscall returns,
   the number of waiters woken (or a negative error).  The function maps
   ret == 0 — nobody was asleep on the address — to -1. -/
def kz_futex_wake (ret : Int) : Int :=
  if ret = 0 then -1
  else if 0 < ret then 0
  else -1

/- The kz_StateHdr descriptor of the shared region together with the two
   ring buffers behind it. -/
structure Chan where
  hdr_size : Nat
  sidecar_ident : Nat
  sidecar_pid : Nat
  host_pid : Nat
  netside_size : Nat
  hostside_size : Nat
  netside : RB
  hostside : RB

/- rb_init as kz_open_raw applies it to a ring that may already hold data:
   header fields are stamped afresh, the payload bytes stay. -/
def rb_reinit (rb : RB) (size : Nat) : RB := rb_init size rb.mem

/- kz_open_raw: shmsize is the fstat size of the shared object, self_pid
   the pid of the caller.  Models the checks, the return code and every
   write the call performs on the shared region. -/
def kz_open_raw (S : Chan) (shmsize : Nat) (self_pid : Nat) : Int × Chan :=
  if shmsize = 0 then (KZ_FAIL, S)
  else if S.hdr_size ≠ shmsize ∨ S.sidecar_pid = 0 then (KZ_FAIL, S)
  else if S.host_pid ≠ 0 then (KZ_FAIL, S)
  else
    (KZ_OK,
      { S with
        host_pid := self_pid,
        netside := rb_reinit S.netside S.netside_size,
        hostside := rb_reinit S.hostside S.hostside_size })

/- The four futex cells of a channel a wake could be issued on. -/
inductive KzCell where
  | netUsed
  | netNeed
  | hostUsed
  | hostNeed
  deriving DecidableEq

/- kz_delete: shm_unlink when called by the sidecar, then munmap, close,
   free.  The shared region is not written and no futex wake is issued.
   The Bool records whether the name was unlinked, the list the wakes
   issued (there are none). -/
def kz_delete (S : Chan) (self_pid : Nat) : Chan × Bool × List KzCell :=
  (S, decide (S.sidecar_pid = self_pid), [])

/- One operation of the single-ring protocol: a kz_try_push, or a
   kz_try_pop immediately followed, when it succeeds, by kz_data_free. -/
inductive Op where
  | push (size : Nat) (data : Nat → Nat)
  | popfree

def step (rb : RB) : Op → RB
  | .push size data => (rb_try_push rb data size).2.1
  | .popfree =>
    match (rb_try_pop rb).2.2 with
    | some rd => (kz_data_free rb rd).1
    | none => rb

def run (rb : RB) (ops : List Op) : RB := ops.foldl step rb

/- Sum of the framed sizes of a list of pending payload lengths. -/
def sumF : List Nat → Nat
  | [] => 0
  | L :: t => frameSize L + sumF t

/- Byte offset of the length prefixed before the j-th pending message. -/
def framePos (C hd : Nat) (q : List Nat) (j : Nat) : Nat :=
  (hd + sumF (q.take j)) % C

/- The reachability invariant of a ring: q is the queue of pending payload
   lengths, oldest first. -/
structure Inv (rb : RB) (q : List Nat) : Prop where
  csize : 0 < rb.size
  calign : rb.size % 4 = 0
  cbound : rb.size < U32
  usedq : rb.used = sumF q
  usede : rb.used ≤ rb.size
  hdlt : rb.head < rb.size
  hdal : rb.head % 4 = 0
  tllt : rb.tail < rb.size
  tlal : rb.tail % 4 = 0
  tleq : rb.tail = (rb.head + rb.used) % rb.size
  frames : ∀ j, (h : j < q.length) →
    kz_read_u32le rb.mem (framePos rb.size rb.head q j) = q.get ⟨j, h⟩

/- A concrete channel: creator pid 42, attacher pid 7 already recorded, both
   rings empty — the attacher is blocked in a pop of the empty netside ring
   when the creator calls kz_delete. -/
def chD : Chan :=
  { hdr_size := 104, sidecar_ident := 1, sidecar_pid := 42, host_pid := 7,
    netside_size := 16, hostside_size := 16,
    netside := rb_init 16 (fun _ => 0), hostside := rb_init 16 (fun _ => 0) }

/- A concrete channel right before an attach: creator pid 42, no attacher
   recorded, and one 3-byte message already pushed into the netside ring. -/
def chO : Chan :=
  { hdr_size := 104, sidecar_ident := 1, sidecar_pid := 42, host_pid := 0,
    netside_size := 16, hostside_size := 16,
    netside := run (rb_init 16 (fun _ => 0)) [Op.push 3 (fun i => i + 65)],
    hostside := rb_init 16 (fun _ => 0) }

/- ------------------------------------------------------------------ -/
/- Arithmetic helper lemmas                                            -/
/- ------------------------------------------------------------------ -/

lemma frameSize_szt_eq (L : Nat) (h : L + 8 ≤ SIZE_T) :
    frameSize_szt L = frameSize L := by
  have h' : L + 8 ≤ 18446744073709551616 := h
  unfold frameSize_szt frameSize kz_get_aligned_size KZ_ALIGN SIZE_T
  omega

lemma rb_try_push_szt_eq (rb : RB) (data : Nat → Nat) (size : Nat)
    (h : size + 8 ≤ SIZE_T) :
    rb_try_push_szt rb data size = rb_try_push rb data size := by
  unfold rb_try_push_szt rb_try_push
  rw [frameSize_szt_eq size h]

lemma frameSize_ge (L : Nat) : L + 4 ≤ frameSize L := by
  unfold frameSize kz_get_aligned_size KZ_ALIGN
  omega

lemma frameSize_lt (L : Nat) : frameSize L < L + 8 := by
  unfold frameSize kz_get_aligned_size KZ_ALIGN
  omega

lemma frameSize_mod4 (L : Nat) : frameSize L % 4 = 0 := by
  unfold frameSize kz_get_aligned_size KZ_ALIGN
  omega

lemma u32sub_eq (a b : Nat) (hb : b ≤ a) (ha : a < U32) : u32sub a b = a - b := by
  have ha' : a < 4294967296 := ha
  unfold u32sub U32
  omega

lemma rb_space_size_eq (rb : RB) (h1 : rb.used ≤ rb.size) (h2 : rb.size < U32) :
    rb_space_size rb = rb.size - rb.used := by
  have h2' : rb.size < 4294967296 := h2
  unfold rb_space_size SIZE_T
  omega

lemma mod_mod4 (a C : Nat) (h : C % 4 = 0) : a % C % 4 = a % 4 :=
  Nat.mod_mod_of_dvd a (Nat.dvd_of_mod_eq_zero h)

lemma mod_add_inj (C h x y : Nat) (hx : x < C) (hy : y < C)
    (he : (h + x) % C = (h + y) % C) : x = y := by
  have hm : x % C = y % C := Nat.ModEq.add_left_cancel' h he
  rwa [Nat.mod_eq_of_lt hx, Nat.mod_eq_of_lt hy] at hm

/- ------------------------------------------------------------------ -/
/- Byte map lemmas                                                     -/
/- ------------------------------------------------------------------ -/

lemma write_u32le_of_ne (mem : Nat → Nat) (p n i : Nat)
    (h0 : i ≠ p) (h1 : i ≠ p + 1) (h2 : i ≠ p + 2) (h3 : i ≠ p + 3) :
    kz_write_u32le mem p n i = mem i := by
  unfold kz_write_u32le
  simp only [if_neg h0, if_neg h1, if_neg h2, if_neg h3]

lemma read_u32le_congr (m1 m2 : Nat → Nat) (p : Nat)
    (h0 : m1 p = m2 p) (h1 : m1 (p + 1) = m2 (p + 1))
    (h2 : m1 (p + 2) = m2 (p + 2)) (h3 : m1 (p + 3) = m2 (p + 3)) :
    kz_read_u32le m1 p = kz_read_u32le m2 p := by
  unfold kz_read_u32le
  rw [h0, h1, h2, h3]

lemma read_write_u32le (mem : Nat → Nat) (p n : Nat) :
    kz_read_u32le (kz_write_u32le mem p n) p = n % U32 := by
  have e0 : kz_write_u32le mem p n p = n % 256 := by
    unfold kz_write_u32le; rw [if_pos rfl]
  have e1 : kz_write_u32le mem p n (p + 1) = n / 256 % 256 := by
    unfold kz_write_u32le; rw [if_neg (by omega), if_pos rfl]
  have e2 : kz_write_u32le mem p n (p + 2) = n / 65536 % 256 := by
    unfold kz_write_u32le; rw [if_neg (by omega), if_neg (by omega), if_pos rfl]
  have e3 : kz_write_u32le mem p n (p + 3) = n / 16777216 % 256 := by
    unfold kz_write_u32le
    rw [if_neg (by omega), if_neg (by omega), if_neg (by omega), if_pos rfl]
  unfold kz_read_u32le U32
  rw [e0, e1, e2, e3]
  omega

lemma memcpy_in (mem : Nat → Nat) (dst : Nat) (src : Nat → Nat) (soff n i : Nat)
    (h1 : dst ≤ i) (h2 : i < dst + n) :
    memcpy mem dst src soff n i = src (soff + (i - dst)) := by
  unfold memcpy
  rw [if_pos ⟨h1, h2⟩]

lemma memcpy_out (mem : Nat → Nat) (dst : Nat) (src : Nat → Nat) (soff n i : Nat)
    (h : i < dst ∨ dst + n ≤ i) :
    memcpy mem dst src soff n i = mem i := by
  unfold memcpy
  rw [if_neg (by omega)]

/- ------------------------------------------------------------------ -/
/- rb_push_bytes lemmas                                                -/
/- ------------------------------------------------------------------ -/

/- Bytes outside the written window of an enqueue are unchanged. -/
lemma rb_push_bytes_frame (mem : Nat → Nat) (C tl : Nat) (data : Nat → Nat) (sz x : Nat)
    (htl : tl + 4 ≤ C) (hsz : 4 + sz ≤ C)
    (hx : ∀ k, k < 4 + sz → x ≠ (tl + k) % C) :
    rb_push_bytes mem C tl data sz x = mem x := by
  have hpre : ∀ m, m < 4 → x ≠ tl + m := by
    intro m hm he
    exact hx m (by omega) (by rw [Nat.mod_eq_of_lt (by omega)]; exact he)
  have hwrite : kz_write_u32le mem tl sz x = mem x := by
    apply write_u32le_of_ne
    · have := hpre 0 (by omega); omega
    · exact hpre 1 (by omega)
    · exact hpre 2 (by omega)
    · exact hpre 3 (by omega)
  unfold rb_push_bytes
  split_ifs with hone
  · rw [memcpy_out, hwrite]
    by_contra hcon
    push_neg at hcon
    exact hx (x - tl) (by omega)
      (by rw [show tl + (x - tl) = x by omega, Nat.mod_eq_of_lt (by omega)])
  · have houter : x < 0 ∨ 0 + (sz - (C - (tl + 4))) ≤ x := by
      right
      by_contra hcon
      push_neg at hcon
      exact hx (4 + (C - (tl + 4)) + x) (by omega)
        (by rw [show tl + (4 + (C - (tl + 4)) + x) = C + x by omega,
                Nat.add_mod_left, Nat.mod_eq_of_lt (by omega)])
    have hinner : x < tl + 4 ∨ tl + 4 + (C - (tl + 4)) ≤ x := by
      by_contra hcon
      push_neg at hcon
      exact hx (x - tl) (by omega)
        (by rw [show tl + (x - tl) = x by omega, Nat.mod_eq_of_lt (by omega)])
    rw [memcpy_out _ _ _ _ _ _ houter, memcpy_out _ _ _ _ _ _ hinner, hwrite]

/- The payload bytes of an enqueue land at (tl + 4 + i) mod C. -/
lemma rb_push_bytes_payload (mem : Nat → Nat) (C tl : Nat) (data : Nat → Nat) (sz : Nat)
    (htl : tl + 4 ≤ C) (hsz : 4 + sz ≤ C) :
    ∀ i, i < sz → rb_push_bytes mem C tl data sz ((tl + 4 + i) % C) = data i := by
  intro i hi
  unfold rb_push_bytes
  split_ifs with hone
  · rw [Nat.mod_eq_of_lt (by omega),
      memcpy_in _ _ _ _ _ _ (by omega) (by omega)]
    congr 1
    omega
  · by_cases hc : tl + 4 + i < C
    · rw [Nat.mod_eq_of_lt hc, memcpy_out _ _ _ _ _ _ (by omega),
        memcpy_in _ _ _ _ _ _ (by omega) (by omega)]
      congr 1
      omega
    · rw [Nat.mod_eq_sub_mod (by omega), Nat.mod_eq_of_lt (by omega),
        memcpy_in _ _ _ _ _ _ (by omega) (by omega)]
      congr 1
      omega

/- The length prefix of an enqueue reads back as the payload length
   truncated to uint32_t. -/
lemma rb_push_bytes_len (mem : Nat → Nat) (C tl : Nat) (data : Nat → Nat) (sz : Nat)
    (htl : tl + 4 ≤ C) (hsz : 4 + sz ≤ C) :
    kz_read_u32le (rb_push_bytes mem C tl data sz) tl = sz % U32 := by
  have hkey : ∀ m, m < 4 →
      rb_push_bytes mem C tl data sz (tl + m) = kz_write_u32le mem tl sz (tl + m) := by
    intro m hm
    unfold rb_push_bytes
    split_ifs with hone
    · exact memcpy_out _ _ _ _ _ _ (by omega)
    · rw [memcpy_out _ _ _ _ _ _ (by omega)]
      exact memcpy_out _ _ _ _ _ _ (by omega)
  have r : kz_read_u32le (rb_push_bytes mem C tl data sz) tl
      = kz_read_u32le (kz_write_u32le mem tl sz) tl := by
    apply read_u32le_congr
    · have h := hkey 0 (by omega)
      simpa using h
    · exact hkey 1 (by omega)
    · exact hkey 2 (by omega)
    · exact hkey 3 (by omega)
  rw [r, read_write_u32le]

/- ------------------------------------------------------------------ -/
/- List helper lemmas                                                  -/
/- ------------------------------------------------------------------ -/

lemma take_append_le {α : Type} (l1 l2 : List α) (n : Nat) (h : n ≤ l1.length) :
    (l1 ++ l2).take n = l1.take n := by
  induction l1 generalizing n with
  | nil =>
    have : n = 0 := by simpa using h
    simp [this]
  | cons a t ih =>
    cases n with
    | zero => rfl
    | succ m =>
      rw [List.cons_append, List.take_succ_cons, List.take_succ_cons,
        ih _ (by simpa using h)]

lemma get_append_left {α : Type} (l1 l2 : List α) (j : Nat)
    (h : j < l1.length) (h2 : j < (l1 ++ l2).length) :
    (l1 ++ l2).get ⟨j, h2⟩ = l1.get ⟨j, h⟩ := by
  induction l1 generalizing j with
  | nil => simp at h
  | cons a t ih =>
    cases j with
    | zero => rfl
    | succ m => exact ih _ (by simpa using h) (by simpa using h2)

lemma get_append_last {α : Type} (l : List α) (a : α)
    (h : l.length < (l ++ [a]).length) :
    (l ++ [a]).get ⟨l.length, h⟩ = a := by
  induction l with
  | nil => rfl
  | cons b t ih => exact ih (by simp)

/- ------------------------------------------------------------------ -/
/- sumF lemmas                                                         -/
/- ------------------------------------------------------------------ -/

lemma sumF_append (q1 q2 : List Nat) : sumF (q1 ++ q2) = sumF q1 + sumF q2 := by
  induction q1 with
  | nil => simp [sumF]
  | cons a t ih => simp [sumF, ih]; omega

lemma sumF_mod4 (q : List Nat) : sumF q % 4 = 0 := by
  induction q with
  | nil => rfl
  | cons a t ih =>
    have := frameSize_mod4 a
    simp only [sumF]
    omega

lemma sumF_take_bound (q : List Nat) (j : Nat) (h : j < q.length) :
    sumF (q.take j) + 4 ≤ sumF q := by
  induction q generalizing j with
  | nil => simp at h
  | cons a t ih =>
    cases j with
    | zero =>
      have := frameSize_ge a
      simp only [List.take_zero, sumF]
      omega
    | succ m =>
      have := ih m (by simpa using h)
      simp only [List.take_succ_cons, sumF]
      omega

/- ------------------------------------------------------------------ -/
/- Invariant preservation                                              -/
/- ------------------------------------------------------------------ -/

lemma inv_init (C : Nat) (mem : Nat → Nat)
    (h0 : 0 < C) (h4 : C % 4 = 0) (hU : C < U32) :
    Inv (rb_init C mem) [] := by
  refine ⟨h0, h4, hU, rfl, Nat.zero_le _, h0, rfl, h0, rfl, ?_, ?_⟩
  · show (0 : Nat) = (0 + 0) % C
    rw [Nat.add_zero, Nat.zero_mod]
  · intro j h
    simp at h

lemma inv_push (rb : RB) (q : List Nat) (inv : Inv rb q)
    (data : Nat → Nat) (size : Nat) :
    ∃ q2, Inv (rb_try_push rb data size).2.1 q2 := by
  by_cases h1 : rb.size < frameSize size
  · refine ⟨q, ?_⟩
    have e : (rb_try_push rb data size).2.1 = rb := by
      unfold rb_try_push
      rw [if_pos h1]
    rw [e]
    exact inv
  · by_cases h2 : rb_space_size rb < frameSize size
    · refine ⟨q, ?_⟩
      have e : (rb_try_push rb data size).2.1
          = { rb with need := (frameSize size - rb_space_size rb) % U32 } := by
        unfold rb_try_push
        rw [if_neg h1, if_pos h2]
      rw [e]
      exact ⟨inv.csize, inv.calign, inv.cbound, inv.usedq, inv.usede, inv.hdlt,
        inv.hdal, inv.tllt, inv.tlal, inv.tleq, inv.frames⟩
    · -- room for the frame: the real enqueue happens
      refine ⟨q ++ [size], ?_⟩
      have hCU : rb.size < 4294967296 := inv.cbound
      have hsp : rb_space_size rb = rb.size - rb.used :=
        rb_space_size_eq rb inv.usede inv.cbound
      rw [hsp] at h2
      have hFge := frameSize_ge size
      have hF4 := frameSize_mod4 size
      have hFC : frameSize size ≤ rb.size := by omega
      have husedF : rb.used + frameSize size ≤ rb.size := by omega
      have htl4 : rb.tail + 4 ≤ rb.size := by
        have := inv.tlal
        have := inv.tllt
        have := inv.calign
        omega
      have hsz4 : 4 + size ≤ rb.size := by omega
      have e : (rb_try_push rb data size).2.1
          = { rb with
              mem := rb_push_bytes rb.mem rb.size rb.tail data size,
              tail := (rb.tail + frameSize size) % rb.size,
              used := (rb.used + frameSize size) % U32 } := by
        unfold rb_try_push
        rw [if_neg h1, if_neg (by rw [hsp]; omega)]
      rw [e]
      have hused' : (rb.used + frameSize size) % U32 = rb.used + frameSize size :=
        Nat.mod_eq_of_lt (by show _ < 4294967296; omega)
      refine ⟨inv.csize, inv.calign, inv.cbound, ?_, ?_, inv.hdlt, inv.hdal,
        ?_, ?_, ?_, ?_⟩
      · show (rb.used + frameSize size) % U32 = sumF (q ++ [size])
        rw [hused', sumF_append, inv.usedq]
        simp [sumF]
      · show (rb.used + frameSize size) % U32 ≤ rb.size
        rw [hused']
        omega
      · exact Nat.mod_lt _ inv.csize
      · show (rb.tail + frameSize size) % rb.size % 4 = 0
        rw [mod_mod4 _ _ inv.calign]
        have := inv.tlal
        omega
      · show (rb.tail + frameSize size) % rb.size
          = (rb.head + (rb.used + frameSize size) % U32) % rb.size
        rw [hused', inv.tleq, Nat.mod_add_mod, Nat.add_assoc]
      · -- the stored length prefixes
        intro j hj
        show kz_read_u32le (rb_push_bytes rb.mem rb.size rb.tail data size)
            (framePos rb.size rb.head (q ++ [size]) j) = (q ++ [size]).get ⟨j, hj⟩
        have hj' : j < q.length + 1 := by simpa using hj
        by_cases hjq : j < q.length
        · -- an old frame is untouched
          have hpos : framePos rb.size rb.head (q ++ [size]) j
              = framePos rb.size rb.head q j := by
            unfold framePos
            rw [take_append_le _ _ _ (Nat.le_of_lt hjq)]
          rw [hpos, get_append_left _ _ _ hjq hj]
          have hold := inv.frames j hjq
          rw [← hold]
          -- the four prefix bytes of frame j are outside the written window
          have hs4 : sumF (q.take j) + 4 ≤ rb.used := by
            have := sumF_take_bound q j hjq
            rw [inv.usedq]
            omega
          have hsm4 : sumF (q.take j) % 4 = 0 := sumF_mod4 _
          have hpl : (rb.head + sumF (q.take j)) % rb.size < rb.size :=
            Nat.mod_lt _ inv.csize
          have hpm4 : (rb.head + sumF (q.take j)) % rb.size % 4 = 0 := by
            rw [mod_mod4 _ _ inv.calign]
            have := inv.hdal
            omega
          have hfits : (rb.head + sumF (q.take j)) % rb.size + 4 ≤ rb.size := by
            have := inv.calign
            omega
          have hbyte : ∀ m, m < 4 →
              rb_push_bytes rb.mem rb.size rb.tail data size
                (framePos rb.size rb.head q j + m)
              = rb.mem (framePos rb.size rb.head q j + m) := by
            intro m hm
            apply rb_push_bytes_frame _ _ _ _ _ _ htl4 hsz4
            intro k hk heq
            have hpos2 : (rb.head + (sumF (q.take j) + m)) % rb.size
                = framePos rb.size rb.head q j + m := by
              unfold framePos
              rw [← Nat.add_assoc, ← Nat.mod_add_mod]
              exact Nat.mod_eq_of_lt (by omega)
            have htk : (rb.tail + k) % rb.size
                = (rb.head + (rb.used + k)) % rb.size := by
              rw [inv.tleq, Nat.mod_add_mod, Nat.add_assoc]
            rw [htk, ← hpos2] at heq
            have hcancel := mod_add_inj rb.size rb.head (sumF (q.take j) + m)
              (rb.used + k) (by omega)
              (by have := frameSize_lt size; omega) heq
            omega
          apply read_u32le_congr
          · have h := hbyte 0 (by omega)
            rw [Nat.add_zero] at h
            exact h
          · exact hbyte 1 (by omega)
          · exact hbyte 2 (by omega)
          · exact hbyte 3 (by omega)
        · -- the freshly written frame
          have hje : j = q.length := by omega
          subst hje
          have hpos : framePos rb.size rb.head (q ++ [size]) q.length = rb.tail := by
            unfold framePos
            rw [take_append_le _ _ _ (le_refl _), List.take_length, ← inv.usedq,
              ← inv.tleq]
          rw [hpos, get_append_last _ _ hj,
            rb_push_bytes_len _ _ _ _ _ htl4 hsz4]
          exact Nat.mod_eq_of_lt (by show _ < 4294967296; omega)

lemma inv_popfree (rb : RB) (q : List Nat) (inv : Inv rb q) :
    ∃ q2, Inv (step rb Op.popfree) q2 := by
  by_cases h0 : rb.used = 0
  · refine ⟨q, ?_⟩
    have e : step rb Op.popfree = rb := by
      simp only [step]
      rw [show (rb_try_pop rb).2.2 = none by unfold rb_try_pop; rw [if_pos h0]]
    rw [e]
    exact inv
  · -- the ring is non-empty, so the pending queue is non-empty
    obtain ⟨L, t, rfl⟩ : ∃ L t, q = L :: t := by
      cases q with
      | nil =>
        exact absurd inv.usedq (by simpa [sumF] using h0)
      | cons a t => exact ⟨a, t, rfl⟩
    have hL : kz_read_u32le rb.mem rb.head = L := by
      have h := inv.frames 0 (by simp)
      unfold framePos at h
      rw [List.take_zero] at h
      simp only [sumF, Nat.add_zero] at h
      rwa [Nat.mod_eq_of_lt inv.hdlt] at h
    have estep : step rb Op.popfree
        = (kz_data_free rb { refer := true, head := rb.head + 4, size := L }).1 := by
      simp only [step]
      rw [show (rb_try_pop rb).2.2
          = some { refer := true, head := rb.head + 4, size := kz_read_u32le rb.mem rb.head }
        by unfold rb_try_pop; rw [if_neg h0]]
      rw [hL]
    refine ⟨t, ?_⟩
    rw [estep]
    have hCU : rb.size < 4294967296 := inv.cbound
    have hcs : kz_get_aligned_size (4 + L) KZ_ALIGN = frameSize L := by
      unfold frameSize
      rw [Nat.add_comm]
    have hFle : frameSize L ≤ rb.used := by
      rw [inv.usedq]
      simp only [sumF]
      omega
    have hF4 := frameSize_mod4 L
    have hused : rb.used < U32 := Nat.lt_of_le_of_lt inv.usede inv.cbound
    have husub : u32sub rb.used (kz_get_aligned_size (4 + L) KZ_ALIGN)
        = rb.used - frameSize L := by
      rw [hcs]
      exact u32sub_eq _ _ hFle hused
    refine ⟨inv.csize, inv.calign, inv.cbound, ?_, ?_, ?_, ?_, inv.tllt, inv.tlal,
      ?_, ?_⟩
    · show u32sub rb.used (kz_get_aligned_size (4 + L) KZ_ALIGN) = sumF t
      rw [husub, inv.usedq]
      simp only [sumF]
      omega
    · show u32sub rb.used (kz_get_aligned_size (4 + L) KZ_ALIGN) ≤ rb.size
      rw [husub]
      have := inv.usede
      omega
    · exact Nat.mod_lt _ inv.csize
    · show (rb.head + kz_get_aligned_size (4 + L) KZ_ALIGN) % rb.size % 4 = 0
      rw [mod_mod4 _ _ inv.calign, hcs]
      have := inv.hdal
      omega
    · show rb.tail
        = ((rb.head + kz_get_aligned_size (4 + L) KZ_ALIGN) % rb.size
            + u32sub rb.used (kz_get_aligned_size (4 + L) KZ_ALIGN)) % rb.size
      rw [husub, hcs, inv.tleq, Nat.mod_add_mod]
      congr 1
      omega
    · intro j hj
      show kz_read_u32le rb.mem
          (framePos rb.size
            ((rb.head + kz_get_aligned_size (4 + L) KZ_ALIGN) % rb.size) t j)
        = t.get ⟨j, hj⟩
      have h := inv.frames (j + 1) (by simpa using Nat.succ_lt_succ hj)
      have hpos : framePos rb.size
          ((rb.head + kz_get_aligned_size (4 + L) KZ_ALIGN) % rb.size) t j
          = framePos rb.size rb.head (L :: t) (j + 1) := by
        unfold framePos
        rw [List.take_succ_cons]
        simp only [sumF]
        rw [Nat.mod_add_mod, hcs]
        congr 1
        omega
      rw [hpos]
      exact h

lemma inv_step (rb : RB) (q : List Nat) (inv : Inv rb q) (op : Op) :
    ∃ q2, Inv (step rb op) q2 := by
  cases op with
  | push size data =>
    simp only [step]
    exact inv_push rb q inv data size
  | popfree => exact inv_popfree rb q inv

lemma inv_run (rb : RB) (q : List Nat) (inv : Inv rb q) (ops : List Op) :
    ∃ q2, Inv (run rb ops) q2 := by
  induction ops generalizing rb q with
  | nil => exact ⟨q, inv⟩
  | cons op t ih =>
    obtain ⟨q2, h2⟩ := inv_step rb q inv op
    exact ih _ _ h2

lemma step_size (rb : RB) (op : Op) : (step rb op).size = rb.size := by
  cases op with
  | push size data =>
    simp only [step]
    unfold rb_try_push
    split_ifs <;> rfl
  | popfree =>
    simp only [step]
    rcases h : (rb_try_pop rb).2.2 with _ | rd
    · rfl
    · unfold kz_data_free rb_pop_commit
      rfl

lemma run_size (rb : RB) (ops : List Op) : (run rb ops).size = rb.size := by
  induction ops generalizing rb with
  | nil => rfl
  | cons op t ih =>
    show (run (step rb op) t).size = rb.size
    rw [ih (step rb op), step_size]

/- ------------------------------------------------------------------ -/
/- Claim theorems                                                      -/
/- ------------------------------------------------------------------ -/

/-- Push protocol of rb_try_push in the non-wrapping regime of the framed
size (frameSize here is the unbounded align_up, which by rb_try_push_szt_eq
equals the size_t computation of the source for every size with size + 8 at
most 2^64): with F = align_up(4 + L, 4) the call returns TOOBIG exactly when
F exceeds the capacity, regardless of occupancy; otherwise, when free =
C - used < F it returns BUSY after storing need = F - free, leaving every
other field and all payload bytes unchanged; otherwise it writes the 4-byte
little-endian length L at tail, copies the payload wrapping around the end
of the ring, advances tail to (tail + F) mod C, adds F to used, wakes one
sleeper on the used cell exactly when the pre-add used was 0, and returns
OK.  Supports the overflow analysis of the too-big check below. -/
theorem rb_try_push_protocol (rb : RB) (data : Nat → Nat) (size : Nat)
    (hC4 : rb.size % 4 = 0) (hCU : rb.size < U32)
    (hu : rb.used ≤ rb.size) (ht : rb.tail < rb.size) (ht4 : rb.tail % 4 = 0) :
    ((rb_try_push rb data size).1 = KZ_TOOBIG ↔ rb.size < frameSize size) ∧
    (rb.size < frameSize size → (rb_try_push rb data size).2.1 = rb) ∧
    (frameSize size ≤ rb.size → rb.size - rb.used < frameSize size →
      (rb_try_push rb data size).1 = KZ_BUSY ∧
      (rb_try_push rb data size).2.1
        = { rb with need := frameSize size - (rb.size - rb.used) } ∧
      (rb_try_push rb data size).2.2 = false) ∧
    (frameSize size ≤ rb.size → frameSize size ≤ rb.size - rb.used →
      (rb_try_push rb data size).1 = KZ_OK ∧
      (rb_try_push rb data size).2.1.head = rb.head ∧
      (rb_try_push rb data size).2.1.need = rb.need ∧
      (rb_try_push rb data size).2.1.tail = (rb.tail + frameSize size) % rb.size ∧
      (rb_try_push rb data size).2.1.used = rb.used + frameSize size ∧
      ((rb_try_push rb data size).2.2 = true ↔ rb.used = 0) ∧
      kz_read_u32le (rb_try_push rb data size).2.1.mem rb.tail = size ∧
      (∀ i, i < size →
        (rb_try_push rb data size).2.1.mem ((rb.tail + 4 + i) % rb.size) = data i)) := by
  have hCU' : rb.size < 4294967296 := hCU
  have hsp : rb_space_size rb = rb.size - rb.used := rb_space_size_eq rb hu hCU
  have hFge := frameSize_ge size
  have hF4 := frameSize_mod4 size
  by_cases h1 : rb.size < frameSize size
  · have e : rb_try_push rb data size = (KZ_TOOBIG, rb, false) := by
      unfold rb_try_push
      rw [if_pos h1]
    refine ⟨?_, ?_, ?_, ?_⟩
    · rw [e]
      exact ⟨fun _ => h1, fun _ => rfl⟩
    · intro _
      rw [e]
    · intro hle _
      exact absurd hle (by omega)
    · intro hle _
      exact absurd hle (by omega)
  · by_cases h2 : rb_space_size rb < frameSize size
    · have e : rb_try_push rb data size
          = (KZ_BUSY, { rb with need := (frameSize size - rb_space_size rb) % U32 },
             false) := by
        unfold rb_try_push
        rw [if_neg h1, if_pos h2]
      rw [hsp] at h2
      refine ⟨?_, ?_, ?_, ?_⟩
      · rw [e]
        exact ⟨fun hh => absurd hh (show ¬ (KZ_BUSY = KZ_TOOBIG) by decide),
          fun hh => absurd hh h1⟩
      · intro hlt
        exact absurd hlt h1
      · intro _ _
        rw [e]
        refine ⟨rfl, ?_, rfl⟩
        have hn : (frameSize size - rb_space_size rb) % U32
            = frameSize size - (rb.size - rb.used) := by
          rw [hsp]
          exact Nat.mod_eq_of_lt (by show _ < 4294967296; omega)
        rw [hn]
      · intro _ hge
        exact absurd hge (by omega)
    · have e : rb_try_push rb data size
          = (KZ_OK,
             { rb with
               mem := rb_push_bytes rb.mem rb.size rb.tail data size,
               tail := (rb.tail + frameSize size) % rb.size,
               used := (rb.used + frameSize size) % U32 },
             rb.used == 0) := by
        unfold rb_try_push
        rw [if_neg h1, if_neg h2]
      rw [hsp] at h2
      refine ⟨?_, ?_, ?_, ?_⟩
      · rw [e]
        exact ⟨fun hh => absurd hh (show ¬ (KZ_OK = KZ_TOOBIG) by decide),
          fun hh => absurd hh h1⟩
      · intro hlt
        exact absurd hlt h1
      · intro _ hlt
        exact absurd hlt (by omega)
      · intro hle hge
        have htl4 : rb.tail + 4 ≤ rb.size := by omega
        have hsz4 : 4 + size ≤ rb.size := by omega
        rw [e]
        refine ⟨rfl, rfl, rfl, rfl, ?_, ?_, ?_, ?_⟩
        · show (rb.used + frameSize size) % U32 = rb.used + frameSize size
          exact Nat.mod_eq_of_lt (by show _ < 4294967296; omega)
        · show (rb.used == 0) = true ↔ rb.used = 0
          simp
        · show kz_read_u32le (rb_push_bytes rb.mem rb.size rb.tail data size) rb.tail
            = size
          rw [rb_push_bytes_len _ _ _ _ _ htl4 hsz4]
          exact Nat.mod_eq_of_lt (by show _ < 4294967296; omega)
        · intro i hi
          exact rb_push_bytes_payload _ _ _ _ _ htl4 hsz4 i hi

/-- The push protocol evaluated on concrete rings — a 5-byte push into a
fresh 16-byte ring succeeds with frame 12, a 13-byte push is too big
(frame 20 > 16) and a 12-byte push is not (frame 16 = 16). -/
theorem rb_try_push_protocol_witness :
    (rb_try_push (rb_init 16 (fun _ => 0)) (fun i => i + 65) 5).1 = KZ_OK ∧
    (rb_try_push (rb_init 16 (fun _ => 0)) (fun i => i + 65) 5).2.1.used = 12 ∧
    (rb_try_push (rb_init 16 (fun _ => 0)) (fun i => i + 65) 5).2.1.tail = 12 ∧
    kz_read_u32le (rb_try_push (rb_init 16 (fun _ => 0)) (fun i => i + 65) 5).2.1.mem 0
      = 5 ∧
    (rb_try_push (rb_init 16 (fun _ => 0)) (fun i => i + 65) 13).1 = KZ_TOOBIG ∧
    ¬ ((rb_try_push (rb_init 16 (fun _ => 0)) (fun i => i + 65) 12).1 = KZ_TOOBIG) := by
  have h := rb_try_push_protocol (rb_init 16 (fun _ => 0)) (fun i => i + 65) 5
    (by decide) (by decide) (by decide) (by decide) (by decide)
  have h4 := h.2.2.2 (by decide) (by decide)
  have hbig := rb_try_push_protocol (rb_init 16 (fun _ => 0)) (fun i => i + 65) 13
    (by decide) (by decide) (by decide) (by decide) (by decide)
  have hok12 := rb_try_push_protocol (rb_init 16 (fun _ => 0)) (fun i => i + 65) 12
    (by decide) (by decide) (by decide) (by decide) (by decide)
  refine ⟨h4.1, ?_, ?_, ?_, ?_, ?_⟩
  · exact h4.2.2.2.2.1
  · exact h4.2.2.2.1
  · exact h4.2.2.2.2.2.2.1
  · exact hbig.1.mpr (by decide)
  · intro hh
    exact absurd (hok12.1.mp hh) (by decide)

/-- Claim C3: the too-big rejection is bypassed by integer overflow.  For
the payload length 2^64 - 7 the framed size align_up(4 + L, 4) is 2^64,
far above the 16-byte capacity, so the claim demands KZ_TOOBIG regardless
of occupancy; but the source computes the framed size in size_t, where it
wraps to 0, so rb_try_push skips the guard and takes the enqueue path,
returning KZ_OK and adding 0 to used while starting an out-of-bounds copy.
Below the wrap (size + 8 at most 2^64) the size_t computation equals the
mathematical one (rb_try_push_szt_eq) and the claimed protocol holds
(rb_try_push_protocol). -/
theorem kz_try_push_toobig_overflow_bug :
    16 < frameSize 18446744073709551609 ∧
    frameSize_szt 18446744073709551609 = 0 ∧
    (rb_try_push_szt (rb_init 16 (fun _ => 0)) (fun _ => 65)
        18446744073709551609).1 = KZ_OK ∧
    (rb_try_push_szt (rb_init 16 (fun _ => 0)) (fun _ => 65)
        18446744073709551609).2.1.used = 0 ∧
    ¬ ((rb_try_push_szt (rb_init 16 (fun _ => 0)) (fun _ => 65)
        18446744073709551609).1 = KZ_TOOBIG) := by
  decide

/-- Claim C4: pop protocol.  kz_try_pop returns BUSY exactly when the loaded
used is 0, and otherwise OK, exposing the message whose 4-byte little-endian
length sits at offset head.  On commit, kz_data_free with F = align_up(4 + L,
4) advances head to (head + F) mod C, decreases used by F, decreases need by
F (wrapping in the uint32_t cell) and wakes all sleepers on the need cell
exactly when the decremented need is at most 0 read as int32_t. -/
theorem rb_pop_free_protocol (rb : RB) (rd : ReceivedData)
    (hu : rb.used < U32)
    (hF : kz_get_aligned_size (rd.size + 4) KZ_ALIGN ≤ rb.used) :
    ((rb_try_pop rb).1 = KZ_BUSY ↔ rb.used = 0) ∧
    (rb.used ≠ 0 →
      (rb_try_pop rb).1 = KZ_OK ∧
      (rb_try_pop rb).2.2
        = some ⟨true, rb.head + 4, kz_read_u32le rb.mem rb.head⟩) ∧
    (kz_data_free rb rd).1.head
      = (rb.head + kz_get_aligned_size (rd.size + 4) KZ_ALIGN) % rb.size ∧
    (kz_data_free rb rd).1.used
      = rb.used - kz_get_aligned_size (rd.size + 4) KZ_ALIGN ∧
    (kz_data_free rb rd).1.need
      = u32sub rb.need (kz_get_aligned_size (rd.size + 4) KZ_ALIGN) ∧
    ((kz_data_free rb rd).2 = true ↔
      toInt32 (u32sub rb.need (kz_get_aligned_size (rd.size + 4) KZ_ALIGN)) ≤ 0) := by
  have hcs : kz_get_aligned_size (4 + rd.size) KZ_ALIGN
      = kz_get_aligned_size (rd.size + 4) KZ_ALIGN := by
    rw [Nat.add_comm 4 rd.size]
  refine ⟨?_, ?_, ?_, ?_, ?_, ?_⟩
  · unfold rb_try_pop
    split_ifs with h
    · exact ⟨fun _ => h, fun _ => rfl⟩
    · exact ⟨fun hh => absurd hh (show ¬ (KZ_OK = KZ_BUSY) by decide),
        fun hh => absurd hh h⟩
  · intro h
    unfold rb_try_pop
    rw [if_neg h]
    exact ⟨rfl, rfl⟩
  · show (rb.head + kz_get_aligned_size (4 + rd.size) KZ_ALIGN) % rb.size = _
    rw [hcs]
  · show u32sub rb.used (kz_get_aligned_size (4 + rd.size) KZ_ALIGN) = _
    rw [hcs]
    exact u32sub_eq _ _ hF hu
  · rfl
  · show decide (toInt32 (u32sub rb.need
        (kz_get_aligned_size (rd.size + 4) KZ_ALIGN)) ≤ 0) = true ↔ _
    simp

/-- Claim C4 witness: the pop protocol evaluated on a concrete ring holding
one 3-byte message (frame 8): the pop returns OK, and committing it moves
head to 8 and used back to 0. -/
theorem rb_pop_free_protocol_witness :
    (rb_try_pop (run (rb_init 16 (fun _ => 0)) [Op.push 3 (fun i => i + 65)])).1
      = KZ_OK ∧
    (kz_data_free (run (rb_init 16 (fun _ => 0)) [Op.push 3 (fun i => i + 65)])
        { refer := true, head := 4, size := 3 }).1.used = 0 ∧
    (kz_data_free (run (rb_init 16 (fun _ => 0)) [Op.push 3 (fun i => i + 65)])
        { refer := true, head := 4, size := 3 }).1.head = 8 := by
  have h := rb_pop_free_protocol
    (run (rb_init 16 (fun _ => 0)) [Op.push 3 (fun i => i + 65)])
    { refer := true, head := 4, size := 3 } (by decide) (by decide)
  refine ⟨(h.2.1 (by decide)).1, ?_, ?_⟩
  · rw [h.2.2.2.1]
    decide
  · rw [h.2.2.1]
    decide

/-- Claim C10: kz_try_pop is a pure peek.  It writes nothing to the shared
ring, so the state it leaves behind equals the state before it and a second
consecutive call returns the same message; rb_try_push never moves head and
never decreases used; only kz_data_free advances head and decreases used,
and by exactly the framed size of the committed message. -/
theorem rb_try_pop_is_peek (rb : RB) (data : Nat → Nat) (size : Nat)
    (rd : ReceivedData)
    (hu : rb.used ≤ rb.size) (hCU : rb.size < U32)
    (hF : kz_get_aligned_size (rd.size + 4) KZ_ALIGN ≤ rb.used) :
    (rb_try_pop rb).2.1 = rb ∧
    (rb_try_pop (rb_try_pop rb).2.1).2.2 = (rb_try_pop rb).2.2 ∧
    (rb_try_push rb data size).2.1.head = rb.head ∧
    rb.used ≤ (rb_try_push rb data size).2.1.used ∧
    (kz_data_free rb rd).1.head
      = (rb.head + kz_get_aligned_size (rd.size + 4) KZ_ALIGN) % rb.size ∧
    (kz_data_free rb rd).1.used
      = rb.used - kz_get_aligned_size (rd.size + 4) KZ_ALIGN := by
  have hCU' : rb.size < 4294967296 := hCU
  have c1 : (rb_try_pop rb).2.1 = rb := by
    unfold rb_try_pop
    split_ifs <;> rfl
  have hcs : kz_get_aligned_size (4 + rd.size) KZ_ALIGN
      = kz_get_aligned_size (rd.size + 4) KZ_ALIGN := by
    rw [Nat.add_comm 4 rd.size]
  refine ⟨c1, by rw [c1], ?_, ?_, ?_, ?_⟩
  · unfold rb_try_push
    split_ifs <;> rfl
  · unfold rb_try_push
    split_ifs with h1 h2
    · exact le_refl rb.used
    · exact le_refl rb.used
    · show rb.used ≤ (rb.used + frameSize size) % U32
      have hsp : rb_space_size rb = rb.size - rb.used := rb_space_size_eq rb hu hCU
      rw [hsp] at h2
      rw [Nat.mod_eq_of_lt (by show _ < 4294967296; omega)]
      omega
  · show (rb.head + kz_get_aligned_size (4 + rd.size) KZ_ALIGN) % rb.size = _
    rw [hcs]
  · show u32sub rb.used (kz_get_aligned_size (4 + rd.size) KZ_ALIGN) = _
    rw [hcs]
    exact u32sub_eq _ _ hF (by omega)

/-- Claim C10 witness: on a concrete ring holding one 3-byte message, two
consecutive kz_try_pop calls return the same message, a push does not move
head, and kz_data_free returns used to 0. -/
theorem rb_try_pop_is_peek_witness :
    (rb_try_pop (run (rb_init 16 (fun _ => 0)) [Op.push 3 (fun i => i + 65)])).2.2
      = (rb_try_pop (rb_try_pop
          (run (rb_init 16 (fun _ => 0)) [Op.push 3 (fun i => i + 65)])).2.1).2.2 ∧
    (rb_try_push (run (rb_init 16 (fun _ => 0)) [Op.push 3 (fun i => i + 65)])
        (fun _ => 66) 5).2.1.head = 0 ∧
    (kz_data_free (run (rb_init 16 (fun _ => 0)) [Op.push 3 (fun i => i + 65)])
        { refer := true, head := 4, size := 3 }).1.used = 0 := by
  have h := rb_try_pop_is_peek
    (run (rb_init 16 (fun _ => 0)) [Op.push 3 (fun i => i + 65)])
    (fun _ => 66) 5 { refer := true, head := 4, size := 3 }
    (by decide) (by decide) (by decide)
  refine ⟨(h.2.1).symm, ?_, ?_⟩
  · rw [h.2.2.1]
    decide
  · rw [h.2.2.2.2.2]
    decide

/-- Claim C5 (amended): starting from a freshly initialized ring of capacity
C (a positive multiple of 4 that fits the uint32_t size field), after any
sequence of kz_try_push operations and kz_try_pop followed by kz_data_free,
used stays at most C, head and tail are multiples of 4 in the interval
from 0 to C, and tail - head is congruent to used modulo C.  The claim as
frozen demands (tail - head) mod C = used itself; that equality holds
whenever used < C but fails in the exactly-full ring, where used = C while
tail = head — see the counterexample. -/
theorem rb_ring_invariants (C : Nat) (mem : Nat → Nat) (ops : List Op)
    (h0 : 0 < C) (h4 : C % 4 = 0) (hU : C < U32) :
    (run (rb_init C mem) ops).used ≤ C ∧
    (run (rb_init C mem) ops).head % 4 = 0 ∧
    (run (rb_init C mem) ops).head < C ∧
    (run (rb_init C mem) ops).tail % 4 = 0 ∧
    (run (rb_init C mem) ops).tail < C ∧
    (((run (rb_init C mem) ops).tail : Int) - ((run (rb_init C mem) ops).head : Int))
        % (C : Int)
      = ((run (rb_init C mem) ops).used : Int) % (C : Int) := by
  obtain ⟨q, inv⟩ := inv_run _ _ (inv_init C mem h0 h4 hU) ops
  have hsz : (run (rb_init C mem) ops).size = C := run_size _ _
  have husede := inv.usede
  rw [hsz] at husede
  have hhd := inv.hdlt
  rw [hsz] at hhd
  have htl := inv.tllt
  rw [hsz] at htl
  have htleq := inv.tleq
  rw [hsz] at htleq
  refine ⟨husede, inv.hdal, hhd, inv.tlal, htl, ?_⟩
  set R := run (rb_init C mem) ops with hR
  have hcast : (R.tail : Int) = ((R.head : Int) + (R.used : Int)) % (C : Int) := by
    have h := congrArg (fun n : Nat => (n : Int)) htleq
    simpa [Int.ofNat_emod] using h
  rw [hcast, Int.sub_emod, Int.emod_emod_of_dvd _ dvd_rfl, ← Int.sub_emod]
  congr 1
  ring

/-- Claim C5 witness: the invariants evaluated after a concrete push of a
5-byte payload followed by its pop and commit in a 16-byte ring. -/
theorem rb_ring_invariants_witness :
    ((0 : Nat) < 16 ∧ 16 % 4 = 0 ∧ 16 < U32) ∧
    ((run (rb_init 16 (fun _ => 0)) [Op.push 5 (fun i => i + 65), Op.popfree]).used
        ≤ 16 ∧
      (run (rb_init 16 (fun _ => 0)) [Op.push 5 (fun i => i + 65), Op.popfree]).head
          % 4 = 0 ∧
      (run (rb_init 16 (fun _ => 0)) [Op.push 5 (fun i => i + 65), Op.popfree]).head
        < 16 ∧
      (run (rb_init 16 (fun _ => 0)) [Op.push 5 (fun i => i + 65), Op.popfree]).tail
          % 4 = 0 ∧
      (run (rb_init 16 (fun _ => 0)) [Op.push 5 (fun i => i + 65), Op.popfree]).tail
        < 16 ∧
      (((run (rb_init 16 (fun _ => 0)) [Op.push 5 (fun i => i + 65), Op.popfree]).tail
            : Int)
          - ((run (rb_init 16 (fun _ => 0))
              [Op.push 5 (fun i => i + 65), Op.popfree]).head : Int)) % (16 : Int)
        = ((run (rb_init 16 (fun _ => 0))
            [Op.push 5 (fun i => i + 65), Op.popfree]).used : Int) % (16 : Int)) :=
  ⟨⟨by decide, by decide, by decide⟩,
   rb_ring_invariants 16 (fun _ => 0) [Op.push 5 (fun i => i + 65), Op.popfree]
     (by decide) (by decide) (by decide)⟩

/-- Claim C5 counterexample: a single push of a 12-byte payload (frame 16)
into a fresh 16-byte ring fills it exactly: used = 16 while tail and head
are both 0, so (tail - head) mod C = 0 and the frozen equality
(tail - head) mod C = used fails. -/
theorem rb_ring_invariants_counterexample :
    (run (rb_init 16 (fun _ => 0)) [Op.push 12 (fun _ => 65)]).used = 16 ∧
    ((((run (rb_init 16 (fun _ => 0)) [Op.push 12 (fun _ => 65)]).tail : Int)
        - ((run (rb_init 16 (fun _ => 0)) [Op.push 12 (fun _ => 65)]).head : Int))
        % (16 : Int) = 0) ∧
    ¬ ((((run (rb_init 16 (fun _ => 0)) [Op.push 12 (fun _ => 65)]).tail : Int)
        - ((run (rb_init 16 (fun _ => 0)) [Op.push 12 (fun _ => 65)]).head : Int))
        % (16 : Int)
      = ((run (rb_init 16 (fun _ => 0)) [Op.push 12 (fun _ => 65)]).used : Int)) := by
  decide

/-- Claim C1: the round-trip fails on the code at any wrapped message.  In a
16-byte ring with head 8, pushing an 8-byte payload (frame 12, which wraps)
and popping it yields the received data (head 12, length 8), but kz_data_part
reports part lengths 8 and 4: they sum to 12 — the read offset head + 4 — and
not to the pushed payload length 8, because the part-0 length is computed as
capacity - size instead of capacity - head. -/
theorem kz_roundtrip_parts_bug :
    (rb_try_pop (run (rb_init 16 (fun _ => 0))
        [Op.push 3 (fun i => i + 65), Op.popfree, Op.push 8 (fun i => i + 70)])).2.2
      = some ⟨true, 12, 8⟩ ∧
    kz_data_part (run (rb_init 16 (fun _ => 0))
        [Op.push 3 (fun i => i + 65), Op.popfree, Op.push 8 (fun i => i + 70)])
      ⟨true, 12, 8⟩ 0 = some (12, 8) ∧
    kz_data_part (run (rb_init 16 (fun _ => 0))
        [Op.push 3 (fun i => i + 65), Op.popfree, Op.push 8 (fun i => i + 70)])
      ⟨true, 12, 8⟩ 1 = some (0, 4) ∧
    ¬ (8 + 4 = (⟨true, 12, 8⟩ : ReceivedData).size) := by
  decide

/-- Claim C2: the wrap-around exposure fails on the code at the boundary.  A
4-byte payload popped at head 8 of a 16-byte ring ends exactly at the
capacity — its payload interval does not straddle the boundary, so the claim
demands one part of length 4 — yet kz_data_count returns 2 (the comparison is
strict), the second part is empty, and the first part length is reported as
capacity - size = 12 instead of 4. -/
theorem kz_wraparound_parts_bug :
    (rb_try_pop (run (rb_init 16 (fun _ => 0))
        [Op.push 3 (fun i => i + 65), Op.popfree, Op.push 4 (fun i => i + 65)])).2.2
      = some ⟨true, 12, 4⟩ ∧
    (⟨true, 12, 4⟩ : ReceivedData).head + (⟨true, 12, 4⟩ : ReceivedData).size = 16 ∧
    kz_data_count (run (rb_init 16 (fun _ => 0))
        [Op.push 3 (fun i => i + 65), Op.popfree, Op.push 4 (fun i => i + 65)])
      ⟨true, 12, 4⟩ = 2 ∧
    ¬ (kz_data_count (run (rb_init 16 (fun _ => 0))
        [Op.push 3 (fun i => i + 65), Op.popfree, Op.push 4 (fun i => i + 65)])
      ⟨true, 12, 4⟩ = 1) ∧
    kz_data_part (run (rb_init 16 (fun _ => 0))
        [Op.push 3 (fun i => i + 65), Op.popfree, Op.push 4 (fun i => i + 65)])
      ⟨true, 12, 4⟩ 0 = some (12, 12) ∧
    kz_data_part (run (rb_init 16 (fun _ => 0))
        [Op.push 3 (fun i => i + 65), Op.popfree, Op.push 4 (fun i => i + 65)])
      ⟨true, 12, 4⟩ 1 = some (0, 0) := by
  decide

/-- Claim C6: kz_delete performs no teardown handshake.  On the concrete
channel chD, whose attacher is blocked popping the empty netside ring, the
creator kz_delete leaves the whole shared region unchanged and issues no
futex wake at all, a pop of the ring still returns BUSY afterwards, and the
return-code list of the header contains no CLOSED code the blocked peer
could receive. -/
theorem kz_delete_no_close_no_wake :
    (kz_delete chD 42).1 = chD ∧
    (kz_delete chD 42).2.2 = [] ∧
    (rb_try_pop (kz_delete chD 42).1.netside).1 = KZ_BUSY ∧
    kzReturnCodes = [0, -1, -2, -3, -4] :=
  ⟨rfl, rfl, by decide, by decide⟩

/-- Claim C7: kz_open_raw passes its validations on the concrete channel chO
(matching sizes, creator pid 42 non-zero, no attacher) and records pid 7 as
attacher, but it does not leave the ring headers unchanged: it re-runs
rb_init on both rings, so the 3-byte message pending in the netside ring
(used = 8, poppable before the attach) is wiped — used becomes 0 and the pop
now returns BUSY. -/
theorem kz_open_raw_resets_rings_bug :
    (kz_open_raw chO 104 7).1 = KZ_OK ∧
    chO.netside.used = 8 ∧
    (rb_try_pop chO.netside).1 = KZ_OK ∧
    (kz_open_raw chO 104 7).2.host_pid = 7 ∧
    (kz_open_raw chO 104 7).2.netside.used = 0 ∧
    (rb_try_pop (kz_open_raw chO 104 7).2.netside).1 = KZ_BUSY := by
  decide

/-- Claim C8: kz_push_until maps an expired wait to KZ_TIMEOUT (shown on a
full 16-byte ring), but kz_pop_until discards the wait outcome entirely: on
an empty ring whose timed wait expires it returns KZ_BUSY, never
KZ_TIMEOUT. -/
theorem kz_pop_until_no_timeout_bug :
    (kz_push_until (run (rb_init 16 (fun _ => 0)) [Op.push 12 (fun _ => 66)])
        (fun _ => 67) 5 WaitOutcome.timedout).1 = KZ_TIMEOUT ∧
    (kz_pop_until (rb_init 16 (fun _ => 0)) WaitOutcome.timedout).1 = KZ_BUSY ∧
    ¬ (KZ_BUSY = KZ_TIMEOUT) := by
  decide

/-- Claim C9: on the Linux branch, kz_futex_wake maps the syscall result 0 —
the FUTEX_WAKE woke nobody because no sleeper was on the address — to -1,
reporting failure, while a positive count maps to success; so waking zero
sleepers is treated as an error by the code. -/
theorem kz_futex_wake_zero_sleepers_bug :
    kz_futex_wake 0 = -1 ∧
    kz_futex_wake 1 = KZ_OK ∧
    ¬ (kz_futex_wake 0 = KZ_OK) := by
  decide

end Kaze
